import Mathlib

/-!
Shallow embedding of `main.go` of the `restroom` repository: an incremental
Twitter-timeline fetcher with a JSON-persisted per-user cache and a small
aggregator.

External effects are made explicit parameters:
* the remote timeline API (`anaconda`'s `GetUserTimeline`) becomes an oracle
  `api : Nat → ApiResult` giving the outcome of the n-th request issued by the
  run (`.err` models a non-nil error, `.page tl` a successful page);
* the persisted cache file becomes a `FileState` passed to `load` and an `FS`
  passed to `save`;
* timestamps: the Go code only ever consumes a parsed `time.Time` through its
  UTC `Hour()` and `Weekday()` accessors, so `Time` carries exactly those two
  observations. `tweet.CreatedAtTime()` (parsing the wire format) is modelled
  by the `CreatedAtTime : Option Time` field of a raw tweet, `none` standing
  for a parse error.

Go-semantics note that matters below: `log.Fatalf` calls `os.Exit(1)`, which
terminates the process WITHOUT running deferred functions; `mainImpl`'s
`defer c.save()` therefore does not run on a `log.Fatalf` path.
-/

namespace Restroom

/-- UTC observations of a parsed `time.Time`: `Hour()` in `0..23` and
`Weekday()` in `0..6` with Go's convention `0 = Sunday`, `1 = Monday`, ...,
`5 = Friday`, `6 = Saturday`. -/
structure Time where
  hour : Nat
  weekday : Nat
  deriving DecidableEq, Repr

/-- `type Tweet struct { CreatedAt time.Time; Id int64; Place string }`
(main.go lines 24-28). -/
structure Tweet where
  CreatedAt : Time
  Id : Int
  Place : String
  deriving DecidableEq, Repr

/-- `type cache struct { Users map[string][]Tweet }` (main.go lines 30-32).
The Go map is modelled as an association list with at most one entry per key
reachable by lookup (lookup takes the first match). -/
structure cache where
  Users : List (String × List Tweet)
  deriving DecidableEq, Repr

/-- Go map read `c.Users[user]`: a missing key yields the nil slice, i.e. `[]`. -/
def getUsers : List (String × List Tweet) → String → List Tweet
  | [], _ => []
  | p :: t, u => if p.1 = u then p.2 else getUsers t u

def cache.get (c : cache) (u : String) : List Tweet :=
  getUsers c.Users u

/-- Go map write `c.Users[user] = h`: replace the binding if present,
otherwise add it. -/
def setUsers : List (String × List Tweet) → String → List Tweet → List (String × List Tweet)
  | [], u, h => [(u, h)]
  | p :: t, u, h => if p.1 = u then (u, h) :: t else p :: setUsers t u h

def cache.set (c : cache) (u : String) (h : List Tweet) : cache :=
  ⟨setUsers c.Users u h⟩

/-- The fields of an `anaconda.Tweet` that `fetchMore` reads: `tweet.Id`,
`tweet.CreatedAtTime()` (`none` = parse error) and `tweet.Place.Name`. -/
structure RawTweet where
  Id : Int
  CreatedAtTime : Option Time
  PlaceName : String
  deriving DecidableEq, Repr

/-- Outcome of one `api.GetUserTimeline(v)` call: a non-nil error, or a page
of tweets. -/
inductive ApiResult where
  | err
  | page (tl : List RawTweet)
  deriving DecidableEq, Repr

/-- How `fetchMore` ended: `ok` = returned `nil`; `err` = returned a non-nil
error; `fatal` = `log.Fatalf` on a timestamp-parse failure (main.go line 106),
which exits the process at once, skipping deferred functions. -/
inductive FetchSig where
  | ok
  | err
  | fatal
  deriving DecidableEq, Repr

/-- Result of the modelled `fetchMore`: the in-memory cache at the point the
function ends, the trace of issued page requests — for each request, the
snapshot of `c.Users[user]` at the time the request was built together with
the `max_id` value sent (`none` = parameter absent) — and how it ended. -/
structure FetchRes where
  c : cache
  reqs : List (List Tweet × Option Int)
  sig : FetchSig
  deriving Repr

/-- `c.Users[user][len(c.Users[user])-1].Id` for a non-empty history
(main.go line 87); the `.getD 0` default is never reached there. -/
def lastTweetId (h : List Tweet) : Int :=
  ((h.getLast?).map Tweet.Id).getD 0

/-- The inner `for _, tweet := range timeline` loop (main.go lines 101-110):
seen-set dedup, timestamp parse (fatal on failure), append to the user's
history. Returns `none` when `log.Fatalf` fires. The Go code inserts the id
into `ids` just before parsing; since a parse failure kills the process, the
whole in-flight state is discarded there and inserting only on success is
observationally identical. -/
def processPage (user : String) : List RawTweet → List Int → cache → Option (List Int × cache)
  | [], seen, c => some (seen, c)
  | tw :: rest, seen, c =>
    if tw.Id ∈ seen then
      processPage user rest seen c
    else
      match tw.CreatedAtTime with
      | none => none
      | some t =>
          processPage user rest (tw.Id :: seen)
            (c.set user (c.get user ++ [⟨t, tw.Id, tw.PlaceName⟩]))

/-- The `v["max_id"]` entry after lines 85-90 ran: set to
`(last cached id) - 1` when the user's history is non-empty, otherwise left
at its previous value (`url.Values` persists across iterations). -/
def nextMax (c : cache) (user : String) (maxId : Option Int) : Option Int :=
  if c.get user = [] then maxId else some (lastTweetId (c.get user) - 1)

/-- The `for i := 0; i < 10; i++` loop of `fetchMore` (main.go lines 84-111).
`fuel` counts the remaining iterations (10 at entry), `i` numbers the next
API call, `first` is the `first` flag, `maxId` is the current `v["max_id"]`
entry, `seen` is the `ids` set, `reqs` accumulates the request trace. -/
def fetchLoop (api : Nat → ApiResult) (user : String) :
    Nat → Nat → Bool → Option Int → List Int → cache →
    List (List Tweet × Option Int) → FetchRes
  | 0, _, _, _, _, c, reqs => ⟨c, reqs, .ok⟩
  | fuel + 1, i, first, maxId, seen, c, reqs =>
    let m := nextMax c user maxId
    let reqs2 := reqs ++ [(c.get user, m)]
    match api i with
    | .err => if first then ⟨c, reqs2, .err⟩ else ⟨c, reqs2, .ok⟩
    | .page tl =>
      if tl = [] then ⟨c, reqs2, .ok⟩
      else
        match processPage user tl seen c with
        | none => ⟨c, reqs2, .fatal⟩
        | some (seen2, c2) => fetchLoop api user fuel (i + 1) false m seen2 c2 reqs2

/-- `func (c *cache) fetchMore(...)` (main.go lines 57-113): the missing
token/token-secret guard returns an error before any request; otherwise the
paginated loop runs with an empty seen-set, `first = true` and no `max_id`. -/
def fetchMore (c : cache) (user token tokenSecret : String) (api : Nat → ApiResult) :
    FetchRes :=
  if token.length = 0 ∨ tokenSecret.length = 0 then ⟨c, [], .err⟩
  else fetchLoop api user 10 0 true none [] c []

/-- State of the persisted `restroom.json` as `load` can encounter it:
the file is missing (`os.Open` fails), its content does not decode
(`d.Decode` returns an error, which line 42 ignores, leaving `c` as
initialized), or it decodes to a document whose `Users` field is absent/null
(`none`) or present (`some`). -/
inductive FileState where
  | missing
  | malformed
  | valid (users : Option (List (String × List Tweet)))
  deriving DecidableEq, Repr

/-- `func load() *cache` (main.go lines 34-47). -/
def load (fs : FileState) : cache :=
  match fs with
  | .missing => ⟨[]⟩
  | .malformed => ⟨[]⟩
  | .valid none => ⟨[]⟩
  | .valid (some us) => ⟨us⟩

/-- The cache file as `save` sees it: whether a write to the target path can
succeed, and the current content (the serialized document is identified with
the cache value it encodes). -/
structure FS where
  writable : Bool
  content : Option cache
  deriving DecidableEq, Repr

/-- `func (c *cache) save()` (main.go lines 49-55): `json.Marshal` (total on
this data; its `log.Fatalf` branch is unreachable), then
`ioutil.WriteFile("restroom.json", b, 0600)` whose returned error is
DISCARDED. Result: the file system after the call, and the error surfaced to
the caller — which is always `none`, because `save` neither returns nor checks
the write error. -/
def cache.save (c : cache) (fs : FS) : FS × Option String :=
  if fs.writable then ({ fs with content := some c }, none)
  else (fs, none)

/-- The command-line inputs `mainImpl` reads: `-u`, `-k`, `-c`, `-t`, `-s`
and the number of unexpected positional arguments (`flag.NArg()`). The `-v`
flag only toggles logging and is omitted. -/
structure Flags where
  user : String
  consumerKey : String
  consumerSecret : String
  token : String
  tokenSecret : String
  nargs : Nat
  deriving DecidableEq, Repr

/-- How the modelled `mainImpl` ends: returned `nil`, returned a non-nil
error, or died inside `log.Fatalf` (which skips deferred functions). -/
inductive MainExit where
  | retOk
  | retErr
  | fatalStop
  deriving DecidableEq, Repr

/-- The caches persisted during the run (`saves`, in order — the deferred
`c.save()` contributes one entry when and only when `mainImpl` returns) and
how `mainImpl` ended. -/
structure MainRes where
  saves : List cache
  exit : MainExit
  deriving DecidableEq, Repr

/-- `func mainImpl() error` (main.go lines 115-176). Flag-validation errors
(lines 127-132) happen before `load`, so nothing is saved on them. After
`c := load()` the save is deferred (line 135): it runs on every `return`
path, but NOT when `fetchMore` dies in `log.Fatalf` (Go's `os.Exit` skips
defers). The aggregation/report (lines 141-175) only writes to stdout and is
modelled separately by `aggregate`. -/
def mainImpl (fl : Flags) (ps : FileState) (api : Nat → ApiResult) : MainRes :=
  if fl.nargs ≠ 0 then ⟨[], .retErr⟩
  else if fl.user.length = 0 then ⟨[], .retErr⟩
  else
    let c := load ps
    if fl.token.length ≠ 0 then
      let r := fetchMore c fl.user fl.token fl.tokenSecret api
      match r.sig with
      | .fatal => ⟨[], .fatalStop⟩
      | .err => ⟨[r.c], .retErr⟩
      | .ok => ⟨[r.c], .retOk⟩
    else ⟨[c], .retOk⟩

/-- `func main()` (main.go lines 178-183): exit code 0 when `mainImpl`
returns `nil`, 1 when it returns an error; a `log.Fatalf` inside also exits
with code 1. Returns the persisted caches and the exit code. -/
def main (fl : Flags) (ps : FileState) (api : Nat → ApiResult) : List cache × Nat :=
  let r := mainImpl fl ps api
  (r.saves, match r.exit with | .retOk => 0 | .retErr => 1 | .fatalStop => 1)

/-- The aggregation state of `mainImpl` (main.go lines 141-145): 24 hour
counters, 7 weekday counters, the place-frequency map, the insertion-order
list of distinct places, and the running maximum place width in runes. -/
structure Agg where
  hours : List Nat
  weekdays : List Nat
  placesMap : List (String × Nat)
  places : List String
  placesLen : Nat
  deriving DecidableEq, Repr

/-- `hours[i]++` / `weekdays[i]++` on a fixed-size counter array. -/
def bump (l : List Nat) (i : Nat) : List Nat :=
  l.set i (l.getD i 0 + 1)

/-- Go map read `placesMap[p]` with presence test: `none` = key absent. -/
def getCount : List (String × Nat) → String → Option Nat
  | [], _ => none
  | q :: t, p => if q.1 = p then some q.2 else getCount t p

/-- Go map write `placesMap[p] = n`. -/
def setCount : List (String × Nat) → String → Nat → List (String × Nat)
  | [], p, n => [(p, n)]
  | q :: t, p, n => if q.1 = p then (p, n) :: t else q :: setCount t p n

/-- One iteration of the aggregation loop body (main.go lines 146-160).
`utf8.RuneCountInString` is `String.length` (characters, not bytes). -/
def aggStep (a : Agg) (t : Tweet) : Agg :=
  let a := { a with
    hours := bump a.hours t.CreatedAt.hour
    weekdays := bump a.weekdays t.CreatedAt.weekday }
  if t.Place.length ≠ 0 then
    let a :=
      if (getCount a.placesMap t.Place).isNone then
        { a with
          placesMap := setCount a.placesMap t.Place 0
          placesLen :=
            if t.Place.length > a.placesLen then t.Place.length else a.placesLen
          places := a.places ++ [t.Place] }
      else a
    { a with placesMap := setCount a.placesMap t.Place ((getCount a.placesMap t.Place).getD 0 + 1) }
  else a

/-- The aggregation loop of `mainImpl` over `c.Users[*user]` (main.go lines
141-160), starting from all-zero counters and empty place state. -/
def aggregate (h : List Tweet) : Agg :=
  h.foldl aggStep ⟨List.replicate 24 0, List.replicate 7 0, [], [], 0⟩

/-- The ids of a user history, in order. -/
def histIds (c : cache) (user : String) : List Int :=
  (c.get user).map Tweet.Id

theorem getUsers_setUsers_self (l : List (String × List Tweet)) (u : String) (h : List Tweet) :
    getUsers (setUsers l u h) u = h := by
  induction l with
  | nil => simp [getUsers, setUsers]
  | cons p t ih =>
    by_cases hp : p.1 = u
    · simp [getUsers, setUsers, hp]
    · simp [getUsers, setUsers, hp, ih]

theorem getUsers_setUsers_ne (l : List (String × List Tweet)) (u u' : String)
    (h : List Tweet) (hne : u' ≠ u) : getUsers (setUsers l u h) u' = getUsers l u' := by
  have hne' : u ≠ u' := fun e => hne e.symm
  induction l with
  | nil => simp [getUsers, setUsers, hne']
  | cons p t ih =>
    by_cases hp : p.1 = u
    · simp [getUsers, setUsers, hp, hne, hne']
    · by_cases hp' : p.1 = u'
      · simp [getUsers, setUsers, hp, hp', hne, hne']
      · simp [getUsers, setUsers, hp, hp', ih]

theorem cache.get_set_self (c : cache) (u : String) (h : List Tweet) :
    (c.set u h).get u = h :=
  getUsers_setUsers_self c.Users u h

theorem cache.get_set_ne (c : cache) (u u' : String) (h : List Tweet) (hne : u' ≠ u) :
    (c.set u h).get u' = c.get u' :=
  getUsers_setUsers_ne c.Users u u' h hne

/-- Frame/growth facts about one page: other users' histories are untouched,
the target user's history only grows at the end, and the seen-set only grows. -/
theorem processPage_frame (user : String) :
    ∀ (page : List RawTweet) (seen : List Int) (c : cache) (seen2 : List Int) (c2 : cache),
      processPage user page seen c = some (seen2, c2) →
      (∀ u', u' ≠ user → c2.get u' = c.get u') ∧
        (c.get user <+: c2.get user) ∧ (∀ x ∈ seen, x ∈ seen2) := by
  intro page
  induction page with
  | nil =>
    intro seen c seen2 c2 hp
    simp only [processPage, Option.some.injEq, Prod.mk.injEq] at hp
    obtain ⟨h1, h2⟩ := hp
    subst h1; subst h2
    exact ⟨fun _ _ => rfl, ⟨[], by simp⟩, fun x hx => hx⟩
  | cons tw rest ih =>
    intro seen c seen2 c2 hp
    simp only [processPage] at hp
    by_cases hseen : tw.Id ∈ seen
    · rw [if_pos hseen] at hp
      exact ih seen c seen2 c2 hp
    · rw [if_neg hseen] at hp
      cases hparse : tw.CreatedAtTime with
      | none => rw [hparse] at hp; exact absurd hp (by simp)
      | some t =>
        rw [hparse] at hp
        obtain ⟨hframe, hpre, hmono⟩ :=
          ih (tw.Id :: seen) (c.set user (c.get user ++ [⟨t, tw.Id, tw.PlaceName⟩])) seen2 c2 hp
        refine ⟨fun u' hu' => ?_, ?_, fun x hx => hmono x (List.mem_cons_of_mem _ hx)⟩
        · rw [hframe u' hu', cache.get_set_ne _ _ _ _ hu']
        · have h1 : c.get user <+:
              (c.set user (c.get user ++ [⟨t, tw.Id, tw.PlaceName⟩])).get user := by
            rw [cache.get_set_self]; exact ⟨[⟨t, tw.Id, tw.PlaceName⟩], rfl⟩
          exact h1.trans hpre

theorem fetchLoop_zero (api : Nat → ApiResult) (user : String) (i : Nat) (first : Bool)
    (maxId : Option Int) (seen : List Int) (c : cache)
    (reqs : List (List Tweet × Option Int)) :
    fetchLoop api user 0 i first maxId seen c reqs = ⟨c, reqs, .ok⟩ := rfl

/-- A failing request while `first` is still true returns the error with the
cache untouched, after exactly one more recorded request. -/
theorem fetchLoop_err_first (api : Nat → ApiResult) (user : String) (fuel i : Nat)
    (maxId : Option Int) (seen : List Int) (c : cache)
    (reqs : List (List Tweet × Option Int)) (h : api i = .err) :
    fetchLoop api user (fuel + 1) i true maxId seen c reqs =
      ⟨c, reqs ++ [(c.get user, nextMax c user maxId)], .err⟩ := by
  simp only [fetchLoop, h]
  rfl

/-- A failing request once `first` is false is a silent break. -/
theorem fetchLoop_err_later (api : Nat → ApiResult) (user : String) (fuel i : Nat)
    (maxId : Option Int) (seen : List Int) (c : cache)
    (reqs : List (List Tweet × Option Int)) (h : api i = .err) :
    fetchLoop api user (fuel + 1) i false maxId seen c reqs =
      ⟨c, reqs ++ [(c.get user, nextMax c user maxId)], .ok⟩ := by
  simp only [fetchLoop, h]
  rfl

/-- An empty page is a silent break. -/
theorem fetchLoop_empty_page (api : Nat → ApiResult) (user : String) (fuel i : Nat)
    (first : Bool) (maxId : Option Int) (seen : List Int) (c : cache)
    (reqs : List (List Tweet × Option Int)) (h : api i = .page []) :
    fetchLoop api user (fuel + 1) i first maxId seen c reqs =
      ⟨c, reqs ++ [(c.get user, nextMax c user maxId)], .ok⟩ := by
  simp only [fetchLoop, h]
  rfl

/-- A timestamp-parse failure inside the page loop is `log.Fatalf`. -/
theorem fetchLoop_fatal (api : Nat → ApiResult) (user : String) (fuel i : Nat)
    (first : Bool) (maxId : Option Int) (seen : List Int) (c : cache)
    (reqs : List (List Tweet × Option Int)) (tl : List RawTweet)
    (h : api i = .page tl) (htl : tl ≠ []) (hp : processPage user tl seen c = none) :
    fetchLoop api user (fuel + 1) i first maxId seen c reqs =
      ⟨c, reqs ++ [(c.get user, nextMax c user maxId)], .fatal⟩ := by
  simp only [fetchLoop, h, hp]
  rw [if_neg htl]

/-- A processed non-empty page continues the loop with `first = false`. -/
theorem fetchLoop_step (api : Nat → ApiResult) (user : String) (fuel i : Nat)
    (first : Bool) (maxId : Option Int) (seen : List Int) (c : cache)
    (reqs : List (List Tweet × Option Int)) (tl : List RawTweet)
    (seen2 : List Int) (c2 : cache) (h : api i = .page tl) (htl : tl ≠ [])
    (hp : processPage user tl seen c = some (seen2, c2)) :
    fetchLoop api user (fuel + 1) i first maxId seen c reqs =
      fetchLoop api user fuel (i + 1) false (nextMax c user maxId) seen2 c2
        (reqs ++ [(c.get user, nextMax c user maxId)]) := by
  simp only [fetchLoop, h, hp]
  rw [if_neg htl]

/-- Frame/growth facts about the whole loop: other users' histories are
untouched and the target user's history only grows at the end. -/
theorem fetchLoop_frame (api : Nat → ApiResult) (user : String) :
    ∀ (fuel i : Nat) (first : Bool) (maxId : Option Int) (seen : List Int) (c : cache)
      (reqs : List (List Tweet × Option Int)),
      (∀ u', u' ≠ user →
          (fetchLoop api user fuel i first maxId seen c reqs).c.get u' = c.get u') ∧
        c.get user <+: (fetchLoop api user fuel i first maxId seen c reqs).c.get user := by
  intro fuel
  induction fuel with
  | zero =>
    intro i first maxId seen c reqs
    rw [fetchLoop_zero]
    exact ⟨fun _ _ => rfl, ⟨[], by simp⟩⟩
  | succ n ih =>
    intro i first maxId seen c reqs
    cases hapi : api i with
    | err =>
      cases first
      · rw [fetchLoop_err_later api user n i maxId seen c reqs hapi]
        exact ⟨fun _ _ => rfl, ⟨[], by simp⟩⟩
      · rw [fetchLoop_err_first api user n i maxId seen c reqs hapi]
        exact ⟨fun _ _ => rfl, ⟨[], by simp⟩⟩
    | page tl =>
      by_cases htl : tl = []
      · subst htl
        rw [fetchLoop_empty_page api user n i first maxId seen c reqs hapi]
        exact ⟨fun _ _ => rfl, ⟨[], by simp⟩⟩
      · cases hp : processPage user tl seen c with
        | none =>
          rw [fetchLoop_fatal api user n i first maxId seen c reqs tl hapi htl hp]
          exact ⟨fun _ _ => rfl, ⟨[], by simp⟩⟩
        | some r =>
          obtain ⟨seen2, c2⟩ := r
          rw [fetchLoop_step api user n i first maxId seen c reqs tl seen2 c2 hapi htl hp]
          obtain ⟨hframe, hpre, _⟩ := processPage_frame user tl seen c seen2 c2 hp
          obtain ⟨ihframe, ihpre⟩ := ih (i + 1) false (nextMax c user maxId) seen2 c2
            (reqs ++ [(c.get user, nextMax c user maxId)])
          exact ⟨fun u' hu' => (ihframe u' hu').trans (hframe u' hu'), hpre.trans ihpre⟩

/-- The loop issues at most `fuel` further requests. -/
theorem fetchLoop_reqs_len (api : Nat → ApiResult) (user : String) :
    ∀ (fuel i : Nat) (first : Bool) (maxId : Option Int) (seen : List Int) (c : cache)
      (reqs : List (List Tweet × Option Int)),
      (fetchLoop api user fuel i first maxId seen c reqs).reqs.length ≤
        reqs.length + fuel := by
  intro fuel
  induction fuel with
  | zero => intro i first maxId seen c reqs; rw [fetchLoop_zero]; simp
  | succ n ih =>
    intro i first maxId seen c reqs
    cases hapi : api i with
    | err =>
      cases first
      · rw [fetchLoop_err_later api user n i maxId seen c reqs hapi]; simp
      · rw [fetchLoop_err_first api user n i maxId seen c reqs hapi]; simp
    | page tl =>
      by_cases htl : tl = []
      · subst htl
        rw [fetchLoop_empty_page api user n i first maxId seen c reqs hapi]; simp
      · cases hp : processPage user tl seen c with
        | none =>
          rw [fetchLoop_fatal api user n i first maxId seen c reqs tl hapi htl hp]; simp
        | some r =>
          obtain ⟨seen2, c2⟩ := r
          rw [fetchLoop_step api user n i first maxId seen c reqs tl seen2 c2 hapi htl hp]
          have := ih (i + 1) false (nextMax c user maxId) seen2 c2
            (reqs ++ [(c.get user, nextMax c user maxId)])
          simp at this ⊢
          omega

/-- Once `first` is false (a non-empty, error-free page has been processed),
the loop never returns a non-nil error: later failures are a silent break. -/
theorem fetchLoop_not_err (api : Nat → ApiResult) (user : String) :
    ∀ (fuel i : Nat) (maxId : Option Int) (seen : List Int) (c : cache)
      (reqs : List (List Tweet × Option Int)),
      (fetchLoop api user fuel i false maxId seen c reqs).sig ≠ .err := by
  intro fuel
  induction fuel with
  | zero => intro i maxId seen c reqs; rw [fetchLoop_zero]; simp
  | succ n ih =>
    intro i maxId seen c reqs
    cases hapi : api i with
    | err => rw [fetchLoop_err_later api user n i maxId seen c reqs hapi]; simp
    | page tl =>
      by_cases htl : tl = []
      · subst htl
        rw [fetchLoop_empty_page api user n i false maxId seen c reqs hapi]; simp
      · cases hp : processPage user tl seen c with
        | none =>
          rw [fetchLoop_fatal api user n i false maxId seen c reqs tl hapi htl hp]; simp
        | some r =>
          obtain ⟨seen2, c2⟩ := r
          rw [fetchLoop_step api user n i false maxId seen c reqs tl seen2 c2 hapi htl hp]
          exact ih (i + 1) (nextMax c user maxId) seen2 c2
            (reqs ++ [(c.get user, nextMax c user maxId)])

/-- If the request in front of the loop succeeds and no timestamp-parse
failure occurs, the loop ends returning `nil`. -/
theorem fetchLoop_first_ok (api : Nat → ApiResult) (user : String) (fuel i : Nat)
    (maxId : Option Int) (seen : List Int) (c : cache)
    (reqs : List (List Tweet × Option Int)) (herr : api i ≠ .err)
    (hfat : (fetchLoop api user (fuel + 1) i true maxId seen c reqs).sig ≠ .fatal) :
    (fetchLoop api user (fuel + 1) i true maxId seen c reqs).sig = .ok := by
  cases hapi : api i with
  | err => exact absurd hapi herr
  | page tl =>
    by_cases htl : tl = []
    · subst htl
      rw [fetchLoop_empty_page api user fuel i true maxId seen c reqs hapi]
    · cases hp : processPage user tl seen c with
      | none =>
        rw [fetchLoop_fatal api user fuel i true maxId seen c reqs tl hapi htl hp] at hfat
        exact absurd rfl hfat
      | some r =>
        obtain ⟨seen2, c2⟩ := r
        rw [fetchLoop_step api user fuel i true maxId seen c reqs tl seen2 c2 hapi htl hp]
          at hfat ⊢
        have hne := fetchLoop_not_err api user fuel (i + 1) (nextMax c user maxId) seen2 c2
          (reqs ++ [(c.get user, nextMax c user maxId)])
        cases hs : (fetchLoop api user fuel (i + 1) false (nextMax c user maxId) seen2 c2
            (reqs ++ [(c.get user, nextMax c user maxId)])).sig with
        | ok => rfl
        | err => exact absurd hs hne
        | fatal => exact absurd hs hfat

/-- Every request in the trace carries the cursor computed from the history
snapshot it was built from: none when the snapshot is empty (the `max_id`
parameter never having been set), `(last id) - 1` otherwise. -/
theorem fetchLoop_cursor (api : Nat → ApiResult) (user : String) :
    ∀ (fuel i : Nat) (first : Bool) (maxId : Option Int) (seen : List Int) (c : cache)
      (reqs : List (List Tweet × Option Int)),
      (c.get user = [] → maxId = none) →
      (∀ pr ∈ reqs, pr.2 = if pr.1 = [] then none else some (lastTweetId pr.1 - 1)) →
      ∀ pr ∈ (fetchLoop api user fuel i first maxId seen c reqs).reqs,
        pr.2 = if pr.1 = [] then none else some (lastTweetId pr.1 - 1) := by
  intro fuel
  induction fuel with
  | zero =>
    intro i first maxId seen c reqs _ hreqs
    rw [fetchLoop_zero]
    exact hreqs
  | succ n ih =>
    intro i first maxId seen c reqs hmax hreqs
    have hnew : (c.get user, nextMax c user maxId).2 =
        if (c.get user, nextMax c user maxId).1 = [] then none
        else some (lastTweetId (c.get user, nextMax c user maxId).1 - 1) := by
      by_cases he : c.get user = []
      · simp [nextMax, he, hmax he]
      · simp [nextMax, he]
    have hreqs2 : ∀ pr ∈ reqs ++ [(c.get user, nextMax c user maxId)],
        pr.2 = if pr.1 = [] then none else some (lastTweetId pr.1 - 1) := by
      intro pr hpr
      rcases List.mem_append.mp hpr with hl | hr
      · exact hreqs pr hl
      · rw [List.mem_singleton.mp hr]; exact hnew
    cases hapi : api i with
    | err =>
      cases first
      · rw [fetchLoop_err_later api user n i maxId seen c reqs hapi]; exact hreqs2
      · rw [fetchLoop_err_first api user n i maxId seen c reqs hapi]; exact hreqs2
    | page tl =>
      by_cases htl : tl = []
      · subst htl
        rw [fetchLoop_empty_page api user n i first maxId seen c reqs hapi]
        exact hreqs2
      · cases hp : processPage user tl seen c with
        | none =>
          rw [fetchLoop_fatal api user n i first maxId seen c reqs tl hapi htl hp]
          exact hreqs2
        | some r =>
          obtain ⟨seen2, c2⟩ := r
          rw [fetchLoop_step api user n i first maxId seen c reqs tl seen2 c2 hapi htl hp]
          obtain ⟨_, hpre, _⟩ := processPage_frame user tl seen c seen2 c2 hp
          refine ih (i + 1) false (nextMax c user maxId) seen2 c2
            (reqs ++ [(c.get user, nextMax c user maxId)]) (fun he2 => ?_) hreqs2
          obtain ⟨t, ht⟩ := hpre
          rw [he2] at ht
          have he : c.get user = [] := (List.append_eq_nil.mp ht).1
          simp [nextMax, he, hmax he]

/-- One page preserves the no-duplicate-id invariant, relative to a set
`base` of ids (the target user's cached ids at the start of the run) that the
page is assumed to avoid: every id in the history stays accounted for by
`base` or the seen-set, and the history stays duplicate-free. -/
theorem processPage_nodup (user : String) (base : List Int) :
    ∀ (page : List RawTweet) (seen : List Int) (c : cache) (seen2 : List Int) (c2 : cache),
      (∀ tw ∈ page, tw.Id ∉ base) →
      (histIds c user).Nodup →
      (∀ x ∈ histIds c user, x ∈ base ∨ x ∈ seen) →
      processPage user page seen c = some (seen2, c2) →
      (histIds c2 user).Nodup ∧ ∀ x ∈ histIds c2 user, x ∈ base ∨ x ∈ seen2 := by
  intro page
  induction page with
  | nil =>
    intro seen c seen2 c2 _ hnd hacc hp
    simp only [processPage, Option.some.injEq, Prod.mk.injEq] at hp
    obtain ⟨h1, h2⟩ := hp
    subst h1; subst h2
    exact ⟨hnd, hacc⟩
  | cons tw rest ih =>
    intro seen c seen2 c2 hpage hnd hacc hp
    simp only [processPage] at hp
    by_cases hseen : tw.Id ∈ seen
    · rw [if_pos hseen] at hp
      exact ih seen c seen2 c2 (fun x hx => hpage x (List.mem_cons_of_mem _ hx)) hnd hacc hp
    · rw [if_neg hseen] at hp
      cases hparse : tw.CreatedAtTime with
      | none => rw [hparse] at hp; exact absurd hp (by simp)
      | some t =>
        rw [hparse] at hp
        have hbase : tw.Id ∉ base := hpage tw (List.mem_cons_self tw rest)
        have hnotin : tw.Id ∉ histIds c user := by
          intro hmem
          rcases hacc tw.Id hmem with hb | hs
          · exact hbase hb
          · exact hseen hs
        have hids : histIds (c.set user (c.get user ++ [⟨t, tw.Id, tw.PlaceName⟩])) user =
            histIds c user ++ [tw.Id] := by
          simp [histIds, cache.get_set_self]
        refine ih (tw.Id :: seen) (c.set user (c.get user ++ [⟨t, tw.Id, tw.PlaceName⟩]))
          seen2 c2 (fun x hx => hpage x (List.mem_cons_of_mem _ hx)) ?_ ?_ hp
        · rw [hids]
          exact List.Nodup.append hnd (List.nodup_singleton _)
            (by simpa [List.disjoint_singleton] using hnotin)
        · intro x hx
          rw [hids] at hx
          rcases List.mem_append.mp hx with hl | hr
          · rcases hacc x hl with hb | hs
            · exact Or.inl hb
            · exact Or.inr (List.mem_cons_of_mem _ hs)
          · rw [List.mem_singleton.mp hr]
            exact Or.inr (List.mem_cons_self tw.Id seen)

/-- The whole loop preserves the no-duplicate-id invariant for the target
user, provided the API never serves an id from `base`. -/
theorem fetchLoop_nodup (api : Nat → ApiResult) (user : String) (base : List Int)
    (hapi : ∀ n tl, api n = .page tl → ∀ tw ∈ tl, tw.Id ∉ base) :
    ∀ (fuel i : Nat) (first : Bool) (maxId : Option Int) (seen : List Int) (c : cache)
      (reqs : List (List Tweet × Option Int)),
      (histIds c user).Nodup →
      (∀ x ∈ histIds c user, x ∈ base ∨ x ∈ seen) →
      (histIds (fetchLoop api user fuel i first maxId seen c reqs).c user).Nodup := by
  intro fuel
  induction fuel with
  | zero =>
    intro i first maxId seen c reqs hnd _
    rw [fetchLoop_zero]
    exact hnd
  | succ n ih =>
    intro i first maxId seen c reqs hnd hacc
    cases hapi' : api i with
    | err =>
      cases first
      · rw [fetchLoop_err_later api user n i maxId seen c reqs hapi']; exact hnd
      · rw [fetchLoop_err_first api user n i maxId seen c reqs hapi']; exact hnd
    | page tl =>
      by_cases htl : tl = []
      · subst htl
        rw [fetchLoop_empty_page api user n i first maxId seen c reqs hapi']
        exact hnd
      · cases hp : processPage user tl seen c with
        | none =>
          rw [fetchLoop_fatal api user n i first maxId seen c reqs tl hapi' htl hp]
          exact hnd
        | some r =>
          obtain ⟨seen2, c2⟩ := r
          rw [fetchLoop_step api user n i first maxId seen c reqs tl seen2 c2 hapi' htl hp]
          obtain ⟨hnd2, hacc2⟩ :=
            processPage_nodup user base tl seen c seen2 c2 (hapi i tl hapi') hnd hacc hp
          exact ih (i + 1) false (nextMax c user maxId) seen2 c2
            (reqs ++ [(c.get user, nextMax c user maxId)]) hnd2 hacc2

/-! Concrete inputs used by witnesses and counterexamples. -/

/-- A valid flag set: target user `u`, token `t`, token secret `s`, no
unexpected positional arguments. -/
def flagsOk : Flags := ⟨"u", "", "", "t", "s", 0⟩

/-- An API on which every request fails. -/
def apiAllErr : Nat → ApiResult := fun _ => .err

/-- First page: one well-formed tweet (id 100). Second page: one tweet whose
timestamp does not parse (id 99). -/
def apiC1 : Nat → ApiResult :=
  fun n => if n = 0 then .page [⟨100, some ⟨3, 1⟩, ""⟩] else .page [⟨99, none, ""⟩]

/-- A cached tweet with id 5. -/
def cacheC2 : cache := ⟨[("u", [⟨⟨0, 0⟩, 5, ""⟩])]⟩

/-- An API whose first page re-serves the already-cached id 5 (overlap with a
previous run), then fails. -/
def apiC2 : Nat → ApiResult :=
  fun n => if n = 0 then .page [⟨5, some ⟨0, 0⟩, ""⟩] else .err

/-- A cached tweet with id 10. -/
def tweetTen : Tweet := ⟨⟨0, 0⟩, 10, ""⟩

/-- A cache holding only `tweetTen` for user `u`. -/
def cacheTen : cache := ⟨[("u", [tweetTen])]⟩

/-- An API serving one fresh tweet (id 9, strictly below the cursor), then
failing. -/
def apiFresh : Nat → ApiResult :=
  fun n => if n = 0 then .page [⟨9, some ⟨0, 0⟩, ""⟩] else .err

/-- An API serving one well-formed page, then failing. -/
def apiC6 : Nat → ApiResult :=
  fun n => if n = 0 then .page [⟨100, some ⟨3, 1⟩, "NYC"⟩] else .err

/-- A cache with histories for the target user `u` and a bystander `b`. -/
def cacheC10 : cache := ⟨[("u", [tweetTen]), ("b", [⟨⟨1, 1⟩, 3, "x"⟩])]⟩

/-- The three posts of the aggregation example: UTC hours `[3, 3, 14]`,
weekdays `[Monday, Monday, Friday]` (Go numbering 1 and 5), places
`["NYC", "", "NYC"]`. -/
def histC9 : List Tweet :=
  [⟨⟨3, 1⟩, 1, "NYC"⟩, ⟨⟨3, 1⟩, 2, ""⟩, ⟨⟨14, 5⟩, 3, "NYC"⟩]

/-! The claims. -/

/-- Claim C1, counterexample: an invocation that loads the cache and then
hits a timestamp-parse failure on the second page persists NOTHING — the
deferred save is skipped by `log.Fatalf`/`os.Exit` — even though a tweet from
the first page had been merged into the in-memory cache. This refutes
"persisted exactly once, on every exit path — including the path where a
timestamp-parse failure aborts the fetch partway". -/
theorem save_skipped_counterexample :
    (mainImpl flagsOk .missing apiC1).saves = [] ∧
      (mainImpl flagsOk .missing apiC1).exit = .fatalStop := by decide

/-- Claim C1 (amended): for every invocation that loads the cache, the
in-memory Cache as it stands at exit is persisted exactly once on every exit
path on which `mainImpl` returns (fetch success, fetch error, no-fetch);
on the timestamp-parse-failure path `log.Fatalf` exits without running the
deferred save, so nothing is persisted. -/
theorem save_exactly_once_unless_fatal (fl : Flags) (ps : FileState) (api : Nat → ApiResult)
    (h1 : fl.nargs = 0) (h2 : fl.user.length ≠ 0) :
    (mainImpl fl ps api).saves =
      if fl.token.length ≠ 0 then
        (if (fetchMore (load ps) fl.user fl.token fl.tokenSecret api).sig = .fatal then []
         else [(fetchMore (load ps) fl.user fl.token fl.tokenSecret api).c])
      else [load ps] := by
  simp only [mainImpl]
  rw [if_neg (show ¬fl.nargs ≠ 0 by simp [h1]), if_neg h2]
  by_cases ht : fl.token.length ≠ 0
  · rw [if_pos ht, if_pos ht]
    cases hs : (fetchMore (load ps) fl.user fl.token fl.tokenSecret api).sig <;> simp [hs]
  · rw [if_neg ht, if_neg ht]

/-- Claim C1 amended, witness at a concrete fatal run. -/
theorem save_exactly_once_unless_fatal_witness :
    (mainImpl flagsOk .missing apiC1).saves =
      if flagsOk.token.length ≠ 0 then
        (if (fetchMore (load .missing) flagsOk.user flagsOk.token flagsOk.tokenSecret
              apiC1).sig = .fatal then []
         else [(fetchMore (load .missing) flagsOk.user flagsOk.token flagsOk.tokenSecret
              apiC1).c])
      else [load .missing] :=
  save_exactly_once_unless_fatal flagsOk .missing apiC1 rfl (by decide)

/-- Claim C2, counterexample: the dedup invariant held at the start of the
run (the cached history is `[id 5]`), yet when the API re-serves id 5 —
which the per-run seen-set, starting empty, does not contain — the fetched
history ends as `[5, 5]`: duplicates across runs are NOT prevented. -/
theorem dedup_counterexample :
    ((cacheC2.get "u").map Tweet.Id).Nodup ∧
      ¬((((fetchMore cacheC2 "u" "t" "s" apiC2).c.get "u").map Tweet.Id).Nodup) := by
  decide

/-- Claim C2 (amended): after a run of the fetcher no two posts of any
user's history share an id, given that the invariant held on every cached
history at the start of the run AND that no id served by the remote API
during the run was already cached for the target user (as when the API
honors the `max_id` cursor). Within one run, duplicate ids across
overlapping pages are deduplicated by the per-run seen-set. -/
theorem dedup_invariant (c0 : cache) (user token tokenSecret : String)
    (api : Nat → ApiResult) (h1 : ∀ u, (histIds c0 u).Nodup)
    (h2 : ∀ n tl, api n = .page tl → ∀ tw ∈ tl, tw.Id ∉ histIds c0 user) :
    ∀ u, (histIds (fetchMore c0 user token tokenSecret api).c u).Nodup := by
  intro u
  unfold fetchMore
  split
  · exact h1 u
  · by_cases hu : u = user
    · subst hu
      exact fetchLoop_nodup api u (histIds c0 u) h2 10 0 true none [] c0 []
        (h1 u) (fun x hx => Or.inl hx)
    · have hfr := (fetchLoop_frame api user 10 0 true none [] c0 []).1 u hu
      have hh : histIds (fetchLoop api user 10 0 true none [] c0 []).c u = histIds c0 u := by
        simp [histIds, hfr]
      rw [hh]
      exact h1 u

/-- Claim C2 amended, witness: cached id 10, API serves the fresh id 9. -/
theorem dedup_invariant_witness :
    (histIds (fetchMore cacheTen "u" "t" "s" apiFresh).c "u").Nodup := by
  refine dedup_invariant cacheTen "u" "t" "s" apiFresh (fun u => ?_) (fun n tl htl => ?_) "u"
  · by_cases h : ("u" : String) = u
    · rw [← h]; decide
    · simp [histIds, cache.get, cacheTen, getUsers, h]
  · by_cases hn : n = 0
    · subst hn
      intro tw htw
      simp only [apiFresh, if_pos, ApiResult.page.injEq] at htl
      rw [← htl] at htw
      simp only [List.mem_singleton] at htw
      subst htw
      decide
    · simp [apiFresh, hn] at htl

/-- Claim C3: regardless of the cache contents and of how many pages the
remote API could serve, the fetcher issues at most 10 page requests before
returning. -/
theorem at_most_ten_requests (c0 : cache) (user token tokenSecret : String)
    (api : Nat → ApiResult) :
    (fetchMore c0 user token tokenSecret api).reqs.length ≤ 10 := by
  unfold fetchMore
  split
  · simp
  · simpa using fetchLoop_reqs_len api user 10 0 true none [] c0 []

/-- Claim C4: every issued request carries, as its `max_id` cursor, the id of
the last-appended cached post minus 1 when the target user's history was
non-empty at the time the request was built, and no cursor at all when it was
empty. -/
theorem cursor_correct (c0 : cache) (user token tokenSecret : String)
    (api : Nat → ApiResult) (hsnap : List Tweet) (cur : Option Int)
    (hmem : (hsnap, cur) ∈ (fetchMore c0 user token tokenSecret api).reqs) :
    cur = if hsnap = [] then none else some (lastTweetId hsnap - 1) := by
  unfold fetchMore at hmem
  split at hmem
  · simp at hmem
  · exact fetchLoop_cursor api user 10 0 true none [] c0 [] (fun _ => rfl)
      (by simp) (hsnap, cur) hmem

/-- Claim C4, witness: with id 10 cached, the one issued request carries
cursor 9. -/
theorem cursor_correct_witness :
    (some 9 : Option Int) =
      if [tweetTen] = ([] : List Tweet) then none else some (lastTweetId [tweetTen] - 1) :=
  cursor_correct cacheTen "u" "t" "s" apiAllErr [tweetTen] (some 9) (by decide)

/-- Claim C5: if the first page request of a run fails, the fetcher returns
that error without having modified the cache, the cache is persisted
unchanged (empty, if it was previously empty), and the process exits
non-zero. -/
theorem first_request_failure (fl : Flags) (ps : FileState) (api : Nat → ApiResult)
    (h1 : fl.nargs = 0) (h2 : fl.user.length ≠ 0) (h3 : fl.token.length ≠ 0)
    (h4 : fl.tokenSecret.length ≠ 0) (h5 : api 0 = .err) :
    (fetchMore (load ps) fl.user fl.token fl.tokenSecret api).sig = .err ∧
      (fetchMore (load ps) fl.user fl.token fl.tokenSecret api).c = load ps ∧
      main fl ps api = ([load ps], 1) := by
  have hgate : ¬(fl.token.length = 0 ∨ fl.tokenSecret.length = 0) := by
    push_neg
    exact ⟨h3, h4⟩
  have hF : fetchMore (load ps) fl.user fl.token fl.tokenSecret api =
      ⟨load ps, [((load ps).get fl.user, nextMax (load ps) fl.user none)], .err⟩ := by
    unfold fetchMore
    rw [if_neg hgate, show (10 : Nat) = 9 + 1 from rfl,
      fetchLoop_err_first api fl.user 9 0 none [] (load ps) [] h5]
    simp
  refine ⟨by rw [hF], by rw [hF], ?_⟩
  simp only [main, mainImpl]
  rw [if_neg (show ¬fl.nargs ≠ 0 by simp [h1]), if_neg h2, if_pos h3, hF]

/-- Claim C5, witness: empty starting cache, API that always fails. -/
theorem first_request_failure_witness :
    (fetchMore (load .missing) flagsOk.user flagsOk.token flagsOk.tokenSecret
        apiAllErr).sig = .err ∧
      (fetchMore (load .missing) flagsOk.user flagsOk.token flagsOk.tokenSecret
        apiAllErr).c = load .missing ∧
      main flagsOk .missing apiAllErr = ([load .missing], 1) :=
  first_request_failure flagsOk .missing apiAllErr rfl (by decide) (by decide)
    (by decide) rfl

/-- Claim C6: whenever the first page request succeeds (whatever happens on
later requests — failures or empty pages — and however early the loop stops)
and no timestamp-parse failure occurs, the fetcher returns without error, the
cache containing everything merged from the successful pages is the one
persisted, the previously cached posts are still a prefix of the history, and
the process exits zero. -/
theorem later_failure_kept (fl : Flags) (ps : FileState) (api : Nat → ApiResult)
    (h1 : fl.nargs = 0) (h2 : fl.user.length ≠ 0) (h3 : fl.token.length ≠ 0)
    (h4 : fl.tokenSecret.length ≠ 0) (h5 : api 0 ≠ .err)
    (h6 : (fetchMore (load ps) fl.user fl.token fl.tokenSecret api).sig ≠ .fatal) :
    (fetchMore (load ps) fl.user fl.token fl.tokenSecret api).sig = .ok ∧
      main fl ps api = ([(fetchMore (load ps) fl.user fl.token fl.tokenSecret api).c], 0) ∧
      (load ps).get fl.user <+:
        (fetchMore (load ps) fl.user fl.token fl.tokenSecret api).c.get fl.user := by
  have hgate : ¬(fl.token.length = 0 ∨ fl.tokenSecret.length = 0) := by
    push_neg
    exact ⟨h3, h4⟩
  have hF : fetchMore (load ps) fl.user fl.token fl.tokenSecret api =
      fetchLoop api fl.user 10 0 true none [] (load ps) [] := by
    unfold fetchMore
    rw [if_neg hgate]
  rw [hF] at h6 ⊢
  have hok : (fetchLoop api fl.user 10 0 true none [] (load ps) []).sig = .ok := by
    rw [show (10 : Nat) = 9 + 1 from rfl] at h6 ⊢
    exact fetchLoop_first_ok api fl.user 9 0 none [] (load ps) [] h5 h6
  refine ⟨hok, ?_, (fetchLoop_frame api fl.user 10 0 true none [] (load ps) []).2⟩
  simp only [main, mainImpl]
  rw [if_neg (show ¬fl.nargs ≠ 0 by simp [h1]), if_neg h2, if_pos h3, hF]
  simp [hok]

/-- Claim C6, witness: first page succeeds, second request fails; the run is
reported successful. -/
theorem later_failure_kept_witness :
    (fetchMore (load .missing) flagsOk.user flagsOk.token flagsOk.tokenSecret
        apiC6).sig = .ok ∧
      main flagsOk .missing apiC6 =
        ([(fetchMore (load .missing) flagsOk.user flagsOk.token flagsOk.tokenSecret
            apiC6).c], 0) ∧
      (load .missing).get flagsOk.user <+:
        (fetchMore (load .missing) flagsOk.user flagsOk.token flagsOk.tokenSecret
          apiC6).c.get flagsOk.user :=
  later_failure_kept flagsOk .missing apiC6 rfl (by decide) (by decide) (by decide)
    (by decide) (by decide)

/-- Claim C7, counterexample: when the target path cannot be written,
`save` surfaces NO error to its caller — the `ioutil.WriteFile` error is
discarded (main.go line 54) — so the caller cannot log the failure or exit
non-zero because of it. This refutes "fails with an IOError that is surfaced
to the caller". -/
theorem save_silent_counterexample :
    ¬∃ e, (cache.save ⟨[]⟩ ⟨false, none⟩).2 = some e := by
  rintro ⟨e, he⟩
  simp [cache.save] at he

/-- Claim C7 (amended): `save` serializes the Cache and attempts the write;
when the target path cannot be written the file is left unchanged and the
write error is silently discarded — no error is surfaced to the caller, so
the caller neither logs it nor exits non-zero because of it. -/
theorem save_surfaces_no_error (c : cache) (fs : FS) (h : fs.writable = false) :
    (c.save fs).2 = none ∧ (c.save fs).1 = fs := by
  unfold cache.save
  rw [h]
  simp

/-- Claim C7 amended, witness. -/
theorem save_surfaces_no_error_witness :
    (cache.save ⟨[]⟩ ⟨false, none⟩).2 = none ∧
      (cache.save ⟨[]⟩ ⟨false, none⟩).1 = ⟨false, none⟩ :=
  save_surfaces_no_error ⟨[]⟩ ⟨false, none⟩ rfl

/-- Claim C8: for a missing file, malformed content, and content with an
absent `Users` mapping, `load` returns the empty Cache (empty user mapping);
being a total function, it never fails the process. -/
theorem load_fresh_on_bad_state :
    load .missing = ⟨[]⟩ ∧ load .malformed = ⟨[]⟩ ∧ load (.valid none) = ⟨[]⟩ :=
  ⟨rfl, rfl, rfl⟩

/-- Claim C9: on the three-post history with UTC hours `[3, 3, 14]`, weekdays
`[Monday, Monday, Friday]` and places `["NYC", "", "NYC"]`, the aggregation
yields hour counters with 2 at index 3, 1 at index 14 and 0 elsewhere;
weekday counters with Monday (index 1) = 2, Friday (index 5) = 1 and 0
elsewhere; and the place-frequency mapping `{"NYC": 2}`, the empty place
label being excluded. -/
theorem aggregation_example :
    (aggregate histC9).hours =
        [0, 0, 0, 2, 0, 0, 0, 0, 0, 0, 0, 0, 0, 0, 1, 0, 0, 0, 0, 0, 0, 0, 0, 0] ∧
      (aggregate histC9).weekdays = [0, 2, 0, 0, 0, 1, 0] ∧
      (aggregate histC9).placesMap = [("NYC", 2)] := by
  decide

/-- Claim C10: for every cache, target user and sequence of API responses,
the fetcher leaves the cached history of every other user unchanged, and the
target user's previously cached posts remain an unmodified prefix (same
posts, same order, same field values) of the history after the call. -/
theorem fetch_frame (c0 : cache) (user token tokenSecret : String)
    (api : Nat → ApiResult) :
    (∀ u', u' ≠ user →
        (fetchMore c0 user token tokenSecret api).c.get u' = c0.get u') ∧
      c0.get user <+: (fetchMore c0 user token tokenSecret api).c.get user := by
  unfold fetchMore
  split
  · exact ⟨fun _ _ => rfl, ⟨[], by simp⟩⟩
  · exact fetchLoop_frame api user 10 0 true none [] c0 []

/-- Claim C10, witness: the bystander `b` is untouched and `u`'s old history
stays a prefix. -/
theorem fetch_frame_witness :
    (fetchMore cacheC10 "u" "t" "s" apiC6).c.get "b" = cacheC10.get "b" ∧
      cacheC10.get "u" <+: (fetchMore cacheC10 "u" "t" "s" apiC6).c.get "u" :=
  ⟨(fetch_frame cacheC10 "u" "t" "s" apiC6).1 "b" (by decide),
    (fetch_frame cacheC10 "u" "t" "s" apiC6).2⟩

end Restroom
